import Mathlib

/-!
Verification of the dicom-cli core against its specification.

The development shallowly embeds the parts of `dicom_cli.py` that carry the
real invariants: the editability policy, value coercion, the bulk mutation
engine, the rescale/window/quantize rendering pipeline, and the
backup-then-write-then-cleanup save transaction.  Python floats are embedded
as rationals, Python dynamic values as an explicit sum type, and the on-disk
filesystem as a map from path strings to byte contents.  External
collaborators (the pydicom codec's `save_as`, PIL's resize) are modelled as
parameters or are outside the statements, exactly as the spec scopes them.
-/

namespace DicomCLI

/-- A DICOM tag: a pair of group/element numbers, as in
`(element.tag.group, element.tag.element)` in the source. -/
structure Tag where
  group : ℕ
  element : ℕ
deriving DecidableEq, Repr

/-- A Python runtime value as produced by `convert_value_for_vr`: a string,
an `int`, or a `float` (embedded as a rational). -/
inductive PyValue where
  | str (s : String)
  | int (n : ℤ)
  | float (q : ℚ)
deriving DecidableEq, Repr

/-- One data element of a dataset: tag, value representation (VR) code, and
current value.  Sequences (VR `SQ`) never enter the tag map or the mutation
path, so the flat form suffices for the claims. -/
structure DataElement where
  tag : Tag
  vr : String
  value : PyValue
deriving DecidableEq, Repr

/-- A decoded dataset, as the ordered list of its data elements. -/
abbrev Dataset := List DataElement

/-- The working set `self.all_datasets`: an insertion-ordered map from file
path to the loaded dataset. -/
abbrev WSet := List (String × Dataset)

/-- The `critical_tags` set of `is_editable_tag` in the source: structural
tags that must never be edited. -/
def critical_tags : List Tag :=
  [⟨0x0002, 0x0000⟩, ⟨0x0002, 0x0001⟩, ⟨0x0002, 0x0002⟩, ⟨0x0002, 0x0003⟩,
   ⟨0x0002, 0x0010⟩, ⟨0x0008, 0x0016⟩, ⟨0x0008, 0x0018⟩]

/-- The VR allow-list of `is_editable_tag` in the source. -/
def editable_vrs : List String :=
  ["CS", "LO", "LT", "PN", "SH", "ST", "UT", "DS", "IS", "AS", "DA", "DT", "TM"]

/-- Source `is_editable_tag`: the tag is not critical and the VR is in the
allow-list. -/
def is_editable_tag (e : DataElement) : Bool :=
  decide (e.tag ∉ critical_tags) && decide (e.vr ∈ editable_vrs)

/-- The `slice_specific_tags` set of `is_slice_specific_tag` in the source. -/
def slice_specific_tags : List Tag :=
  [⟨0x0018, 0x5100⟩, ⟨0x0020, 0x0032⟩, ⟨0x0020, 0x0037⟩, ⟨0x0020, 0x1041⟩,
   ⟨0x0020, 0x0013⟩, ⟨0x0020, 0x0012⟩, ⟨0x0008, 0x0032⟩, ⟨0x0008, 0x0033⟩,
   ⟨0x0018, 0x0050⟩, ⟨0x0028, 0x1050⟩, ⟨0x0028, 0x1051⟩, ⟨0x0020, 0x1002⟩]

/-- Source `is_slice_specific_tag`. -/
def is_slice_specific_tag (t : Tag) : Bool :=
  decide (t ∈ slice_specific_tags)

/-- The condition of `add_element_to_tree` under which a leaf element enters
`self.tag_map` (and hence becomes editable in the UI): not a sequence,
editable, and not a slice-specific tag while more than one file is loaded. -/
def tag_map_condition (numFiles : ℕ) (e : DataElement) : Bool :=
  decide (e.vr ≠ "SQ") && is_editable_tag e &&
    !(decide (numFiles > 1) && is_slice_specific_tag e.tag)

/-- Python `tag in dataset … dataset[tag]`: the first element carrying the
tag (tags are unique keys of a pydicom dataset). -/
def findTag (ds : Dataset) (t : Tag) : Option DataElement :=
  ds.find? (fun e => decide (e.tag = t))

/-- Python `dataset[tag].value = new_value`: replace the value of the (first)
element carrying the tag. -/
def setTagValue : Dataset → Tag → PyValue → Dataset
  | [], _, _ => []
  | e :: rest, t, v =>
      if e.tag = t then { e with value := v } :: rest
      else e :: setTagValue rest t v

/-- The per-record update guard of `bulk_update_tag`:
`tag in dataset and self.is_editable_tag(dataset[tag])`. -/
def wouldUpdate (ds : Dataset) (t : Tag) : Bool :=
  match findTag ds t with
  | some el => is_editable_tag el
  | none => false

/-- Source `bulk_update_tag`.  First component: the working set after the
fan-out (each record is updated exactly when its guard holds, otherwise kept
untouched).  Second component: the Python return value of the method — the
source has no `return` statement, so it always returns `None`, embedded as
`none`; `some n` would represent returning the integer `n`. -/
def bulk_update_tag (ws : WSet) (t : Tag) (v : PyValue) : WSet × Option ℕ :=
  (ws.map (fun entry =>
      if wouldUpdate entry.2 t then (entry.1, setTagValue entry.2 t v)
      else entry),
   none)

/-- Number of records of the working set whose update guard holds: the count
of records `bulk_update_tag` actually updates (a derived observability
quantity; the source computes and returns no such count). -/
def updatedCount (ws : WSet) (t : Tag) : ℕ :=
  (ws.filter (fun entry => wouldUpdate entry.2 t)).length

/-- Parse an optional sign followed by one or more digits.  Models the Python
built-in `int(str)` on the fragment exercised here: it succeeds exactly on
(signed) digit strings and raises `ValueError` otherwise. -/
def parseInt? (s : String) : Option ℤ :=
  let core (ds : List Char) : Option ℕ :=
    if ds ≠ [] ∧ ds.all Char.isDigit then
      some (ds.foldl (fun acc c => 10 * acc + (c.toNat - '0'.toNat)) 0)
    else none
  match s.data with
  | '-' :: rest => (core rest).map (fun n => -(n : ℤ))
  | '+' :: rest => (core rest).map (fun n => (n : ℤ))
  | ds => (core ds).map (fun n => (n : ℤ))

/-- Parse an optional sign, digits, and an optional fractional part.  Models
the Python built-in `float(str)` on the fragment exercised here: it succeeds
on (signed) decimal literals and raises `ValueError` on non-numeric text. -/
def parseFloat? (s : String) : Option ℚ :=
  let digits (ds : List Char) : ℕ :=
    ds.foldl (fun acc c => 10 * acc + (c.toNat - '0'.toNat)) 0
  let core (ds : List Char) : Option ℚ :=
    match ds.span Char.isDigit with
    | (intPart, []) =>
        if intPart ≠ [] then some ((digits intPart : ℚ)) else none
    | (intPart, '.' :: fracPart) =>
        if (intPart ≠ [] ∨ fracPart ≠ []) ∧ fracPart.all Char.isDigit then
          some ((digits intPart : ℚ) +
            (digits fracPart : ℚ) / ((10 : ℚ) ^ fracPart.length))
        else none
    | _ => none
  match s.data with
  | '-' :: rest => (core rest).map (fun q => -q)
  | '+' :: rest => (core rest).map (fun q => q)
  | ds => (core ds).map (fun q => q)

/-- Coercion failure: the `ValueError` raised by `float`/`int`, which the
spec names `InvalidFormat`. -/
inductive ConvErr where
  | invalidFormat
deriving DecidableEq, Repr

/-- Source `convert_value_for_vr`.  `DS` parses a float with empty string
coercing to `0.0`; `IS` parses an int with empty string coercing to `0`;
every other VR returns the trimmed string.  A parse failure is the raised
`ValueError`, embedded as `Except.error`. -/
def convert_value_for_vr (value : String) (vr : String) : Except ConvErr PyValue :=
  if vr = "DS" then
    if value ≠ "" then
      match parseFloat? value with
      | some q => .ok (.float q)
      | none => .error .invalidFormat
    else .ok (.float 0)
  else if vr = "IS" then
    if value ≠ "" then
      match parseInt? value with
      | some n => .ok (.int n)
      | none => .error .invalidFormat
    else .ok (.int 0)
  else if vr = "AS" then .ok (.str value.trim)
  else if vr = "DA" then .ok (.str value.trim)
  else if vr = "DT" then .ok (.str value.trim)
  else if vr = "TM" then .ok (.str value.trim)
  else .ok (.str value.trim)

/-- The mutable app state touched by `handle_edit_result`: the currently
displayed dataset, the working set, and the dirty flag. -/
structure EditState where
  dataset : Dataset
  all_datasets : WSet
  has_changes : Bool
deriving DecidableEq, Repr

/-- Source `handle_edit_result` for a selected tag-map entry.  `new_value` is
the dialog result (`none` when cancelled).  If the value changed, coercion is
attempted; on success the bulk (or single-record) update runs and the dirty
flag is set; a raised `ValueError` lands in the `except` branch, which does
nothing.  The `numFiles > 1` branch also re-syncs `dataset` from the working
set, as `bulk_update_tag` does in the source. -/
def handle_edit_result (st : EditState) (numFiles : ℕ) (current_file : String)
    (t : Tag) (vr : String) (current_value : String)
    (new_value : Option String) : EditState :=
  match new_value with
  | none => st
  | some nv =>
    if nv = current_value then st
    else
      match convert_value_for_vr nv vr with
      | .error _ => st
      | .ok cv =>
        if numFiles > 1 then
          let ws := (bulk_update_tag st.all_datasets t cv).1
          { dataset :=
              match ws.find? (fun entry => decide (entry.1 = current_file)) with
              | some entry => entry.2
              | none => st.dataset,
            all_datasets := ws,
            has_changes := true }
        else
          { dataset := setTagValue st.dataset t cv,
            all_datasets := st.all_datasets,
            has_changes := true }

/-! Rendering pipeline: rescale, window, quantize (`apply_dicom_rescaling`,
`apply_windowing`, and the quantize step of `pixel_array_to_unicode`).
Numpy float arrays are embedded as grids of rationals. -/

/-- A 2-D sample grid (a numpy array after reduction to one plane). -/
abbrev Grid := List (List ℚ)

/-- All values of a grid, row-major. -/
def gridVals (g : Grid) : List ℚ := g.flatMap id

/-- Minimum of a list (numpy `.min()`; numpy raises on an empty array, and
the empty default is never exercised by the statements below). -/
def listMin : List ℚ → ℚ
  | [] => 0
  | x :: xs => xs.foldl min x

/-- Maximum of a list (numpy `.max()`). -/
def listMax : List ℚ → ℚ
  | [] => 0
  | x :: xs => xs.foldl max x

/-- Numpy `np.clip(x, lo, hi)`: maximum with `lo`, then minimum with `hi`
(so `lo > hi` clips everything to `hi`). -/
def clipQ (x lo hi : ℚ) : ℚ := min (max x lo) hi

/-- Numpy `.astype(np.uint8)` on the values produced by the windowing
formulas, which all lie in `[0, 255]`: truncation toward zero, i.e. the
floor for these non-negative values. -/
def toUint8 (q : ℚ) : ℕ := (⌊q⌋).toNat

/-- Source `apply_dicom_rescaling` on one sample:
`hu = pixel * slope + intercept` (slope/intercept default to `1.0`/`0.0`
when the dataset lacks them, via `getattr`). -/
def rescalePoint (slope intercept x : ℚ) : ℚ := x * slope + intercept

/-- Source `apply_dicom_rescaling` over a grid. -/
def apply_dicom_rescaling (slope intercept : ℚ) (g : Grid) : Grid :=
  g.map (List.map (rescalePoint slope intercept))

/-- The per-sample fixed-window computation of `apply_windowing`: clip to
`[center - width/2, center + width/2]`, then map that interval linearly onto
`[0, 255]` and cast to `uint8`. -/
def windowPoint (w c x : ℚ) : ℕ :=
  toUint8 ((clipQ x (c - w / 2) (c + w / 2) - (c - w / 2)) /
    ((c + w / 2) - (c - w / 2)) * 255)

/-- Source `apply_windowing`.  The preset is the source triple
`(preset_name, window_width, window_center)`; the auto branch runs when the
name is `"Auto"` or the width is `None`.  Non-auto presets in
`window_presets` always carry both numbers, so the `getD` defaults are never
exercised. -/
def apply_windowing (name : String) (ww wc : Option ℚ) (g : Grid) :
    List (List ℕ) :=
  if name = "Auto" ∨ ww = none then
    let pmin := listMin (gridVals g)
    let pmax := listMax (gridVals g)
    if pmin < pmax then
      g.map (List.map (fun x => toUint8 ((x - pmin) / (pmax - pmin) * 255)))
    else
      g.map (List.map (fun _ => 0))
  else
    let w := ww.getD 0
    let c := wc.getD 0
    if c - w / 2 < c + w / 2 then
      g.map (List.map (windowPoint w c))
    else
      g.map (List.map (fun _ => 0))

/-- The `window_presets` list of the source. -/
def window_presets : List (String × Option ℚ × Option ℚ) :=
  [("Auto", none, none), ("Soft Tissue", some 350, some 40),
   ("Lung", some 1500, some (-600)), ("Bone", some 2000, some 300),
   ("Brain", some 80, some 40), ("Liver", some 150, some 30),
   ("Mediastinum", some 350, some 50)]

/-- The quantize step of `pixel_array_to_unicode` on one 0–255 intensity:
`(resized_array // 32).clip(0, 7)`. -/
def quantizeLevel (i : ℕ) : ℕ := min (max (i / 32) 0) 7

/-- The 8-entry glyph palette `blocks` of `pixel_array_to_unicode`. -/
def blocks : List Char := [' ', '░', '▒', '▓', '█', '▉', '▊', '▋']

/-- Quantize step over the resized intensity grid, then glyph lookup
`blocks[idx]` row by row, as in the source's final rendering loop. -/
def renderGlyphRows (g : List (List ℕ)) : List (List Char) :=
  g.map (fun row => row.map (fun i => blocks.getD (quantizeLevel i) ' '))

/-- Fill fraction of each glyph of the palette, per the Unicode block
elements chart: space is empty; U+2591/2592/2593 LIGHT/MEDIUM/DARK SHADE
fill 1/4, 1/2, 3/4; U+2588 FULL BLOCK fills 1; U+2589 LEFT SEVEN EIGHTHS
BLOCK 7/8; U+258A LEFT THREE QUARTERS BLOCK 3/4; U+258B LEFT FIVE EIGHTHS
BLOCK 5/8.  Reference data for reading the palette; not part of the
program. -/
def glyphFill (ch : Char) : ℚ :=
  if ch = ' ' then 0
  else if ch = '░' then 1/4
  else if ch = '▒' then 1/2
  else if ch = '▓' then 3/4
  else if ch = '█' then 1
  else if ch = '▉' then 7/8
  else if ch = '▊' then 3/4
  else if ch = '▋' then 5/8
  else 0

/-! Write transaction: `action_save_file` / `cleanup_backup_files`.  The
filesystem is a map from path to byte content (contents abstracted as
naturals); the external codec's `save_as` is a parameter that either
replaces the file's content (success) or raises `EncodeError` without
touching the file (the collaborator contract of spec section 6). -/

/-- The on-disk state: `some c` when a file with content `c` exists at the
path, `none` otherwise. -/
abbrev FS := String → Option ℕ

/-- Write (create or overwrite) a file. -/
def fsWrite (fs : FS) (p : String) (c : ℕ) : FS :=
  fun q => if q = p then some c else fs q

/-- Delete a file (`Path.unlink`). -/
def fsDelete (fs : FS) (p : String) : FS :=
  fun q => if q = p then none else fs q

/-- The sibling backup path:
`file_path.with_suffix(file_path.suffix + '.bak')` appends `.bak`. -/
def bak (p : String) : String := p ++ ".bak"

/-- Outcome of `action_save_file`, recording which control path ran: the
no-op path (`has_changes` false), the full-success path (backups cleaned,
dirty flag cleared), or the `except` path — some per-file step raised, which
the spec reports as `PartialFailure`. -/
inductive SaveOutcome where
  | noChanges
  | saved
  | failed
deriving DecidableEq, Repr

/-- The app state the save transaction touches. -/
structure SaveState where
  fs : FS
  has_changes : Bool

/-- The per-file loop body of `action_save_file`, over the batch of file
paths in iteration order.  For each file: if no backup exists, copy the
original bytes to the backup path (a missing original makes `shutil.copy2`
raise) and append the backup to `backup_files`; then `dataset.save_as(path)`
— on encode success the file's content becomes `enc path`, on failure the
exception aborts the whole loop, leaving the filesystem as mutated so far.
Returns the filesystem, the accumulated `backup_files`, and whether an
exception was raised. -/
def save_loop (enc : String → Option ℕ) :
    List String → FS → List String → FS × List String × Bool
  | [], fs, bks => (fs, bks, false)
  | p :: rest, fs, bks =>
    if (fs (bak p)).isSome then
      match enc p with
      | some c => save_loop enc rest (fsWrite fs p c) bks
      | none => (fs, bks, true)
    else
      match fs p with
      | none => (fs, bks, true)
      | some orig =>
        match enc p with
        | some c =>
            save_loop enc rest (fsWrite (fsWrite fs (bak p) orig) p c)
              (bks ++ [bak p])
        | none => (fsWrite fs (bak p) orig, bks ++ [bak p], true)

/-- Source `cleanup_backup_files`: unlink every path of the created-backup
list that still exists (unlink failure is tolerated in the source; deletion
is modelled as succeeding). -/
def cleanup_backup_files (fs : FS) : List String → FS
  | [] => fs
  | b :: rest =>
      cleanup_backup_files (if (fs b).isSome then fsDelete fs b else fs) rest

/-- Source `action_save_file` over the batch of loaded file paths (the keys
of `all_datasets` in multi-file mode, or the single current file).  Nothing
happens without pending changes; otherwise the per-file loop runs inside the
`try`, and on completion the created backups are removed and the dirty flag
cleared.  Any raise lands in the silent `except` branch: no cleanup, flag
kept. -/
def action_save_file (enc : String → Option ℕ) (batch : List String)
    (st : SaveState) : SaveState × SaveOutcome :=
  if st.has_changes then
    match save_loop enc batch st.fs [] with
    | (fs1, _, true) => ({ fs := fs1, has_changes := st.has_changes }, .failed)
    | (fs1, bks, false) =>
        ({ fs := cleanup_backup_files fs1 bks, has_changes := false }, .saved)
  else (st, .noChanges)

/-! Theorems about the rendering pipeline. -/

/-- C8: the quantize step maps every 0–255 intensity to one of 8 discrete
levels by integer division by 32 clamped to top level 7, and the mapping is
monotonic: `i1 < i2` implies `level i1 ≤ level i2`. -/
theorem C8_quantize_monotone (i1 i2 : ℕ) (h : i1 < i2) :
    quantizeLevel i1 ≤ quantizeLevel i2 ∧ quantizeLevel i2 ≤ 7 ∧
      quantizeLevel i1 = min (i1 / 32) 7 := by
  unfold quantizeLevel
  refine ⟨?_, min_le_right _ _, by simp⟩
  simp only [Nat.max_zero]
  exact min_le_min (Nat.div_le_div_right h.le) le_rfl

/-- C8 witness at the pair `(0, 255)`. -/
theorem C8_quantize_monotone_witness :
    0 < 255 ∧
      (quantizeLevel 0 ≤ quantizeLevel 255 ∧ quantizeLevel 255 ≤ 7 ∧
        quantizeLevel 0 = min (0 / 32) 7) :=
  ⟨by decide, C8_quantize_monotone 0 255 (by decide)⟩

/-- C5: the 8-entry palette is NOT ordered from empty to full.  Level 4 is
the full block (fill 1) while level 5 is the left seven-eighths block
(fill 7/8), so a higher level renders a less-full glyph. -/
theorem C5_palette_fill_not_monotone :
    blocks.getD 4 ' ' = '█' ∧ blocks.getD 5 ' ' = '▉' ∧
      glyphFill (blocks.getD 5 ' ') < glyphFill (blocks.getD 4 ' ') ∧
      ¬ (∀ i j : ℕ, i < j → j < blocks.length →
          glyphFill (blocks.getD i ' ') ≤ glyphFill (blocks.getD j ' ')) := by
  have e4 : glyphFill (blocks.getD 4 ' ') = 1 := rfl
  have e5 : glyphFill (blocks.getD 5 ' ') = 7 / 8 := rfl
  refine ⟨rfl, rfl, by rw [e4, e5]; norm_num, fun hmono => ?_⟩
  have h45 := hmono 4 5 (by norm_num) (by norm_num [blocks])
  rw [e4, e5] at h45
  norm_num at h45

/-- C6: a fixed (non-auto) preset with positive width clips every sample to
`[lower, upper]` and maps that interval linearly onto `[0, 255]` pointwise;
for width 350, center 40 the midpoint sample 40 yields 127, every sample ≤
−135 yields 0, and every sample ≥ 215 yields 255. -/
theorem C6_fixed_window (name : String) (w c : ℚ) (g : Grid)
    (hname : name ≠ "Auto") (hw : 0 < w) :
    apply_windowing name (some w) (some c) g =
        g.map (List.map (windowPoint w c)) ∧
      (∀ x : ℚ, windowPoint w c x ≤ 255) ∧
      windowPoint 350 40 40 = 127 ∧
      (∀ x : ℚ, x ≤ -135 → windowPoint 350 40 x = 0) ∧
      (∀ x : ℚ, 215 ≤ x → windowPoint 350 40 x = 255) := by
  have hL : (40 : ℚ) - 350 / 2 = -135 := by norm_num
  have hU : (40 : ℚ) + 350 / 2 = 215 := by norm_num
  refine ⟨?_, ?_, ?_, ?_, ?_⟩
  · rw [apply_windowing, if_neg (by simp [hname])]
    simp only [Option.getD_some]
    rw [if_pos (by linarith)]
  · intro x
    unfold windowPoint toUint8 clipQ
    have hLU : c - w / 2 ≤ c + w / 2 := by linarith
    have hden : (0 : ℚ) < (c + w / 2) - (c - w / 2) := by linarith
    have hhi : min (max x (c - w / 2)) (c + w / 2) ≤ c + w / 2 :=
      min_le_right _ _
    have hval : (min (max x (c - w / 2)) (c + w / 2) - (c - w / 2)) /
        ((c + w / 2) - (c - w / 2)) * 255 ≤ 255 := by
      have hdiv : (min (max x (c - w / 2)) (c + w / 2) - (c - w / 2)) /
          ((c + w / 2) - (c - w / 2)) ≤ 1 := by
        rw [div_le_one hden]; linarith
      nlinarith
    have hfloor : ⌊(min (max x (c - w / 2)) (c + w / 2) - (c - w / 2)) /
        ((c + w / 2) - (c - w / 2)) * 255⌋ ≤ (255 : ℤ) := by
      have h255 : ⌊(255 : ℚ)⌋ = (255 : ℤ) := by norm_num
      calc ⌊(min (max x (c - w / 2)) (c + w / 2) - (c - w / 2)) /
          ((c + w / 2) - (c - w / 2)) * 255⌋ ≤ ⌊(255 : ℚ)⌋ :=
            Int.floor_le_floor hval
        _ = 255 := h255
    exact Int.toNat_le.mpr hfloor
  · unfold windowPoint clipQ
    rw [hL, hU]
    rw [max_eq_left (by norm_num), min_eq_left (by norm_num)]
    norm_num [toUint8]
    rfl
  · intro x hx
    unfold windowPoint clipQ
    rw [hL, hU]
    rw [max_eq_right hx, min_eq_left (by norm_num)]
    norm_num [toUint8]
  · intro x hx
    unfold windowPoint clipQ
    rw [hL, hU]
    rw [max_eq_left (by linarith), min_eq_right hx]
    norm_num [toUint8]
    rfl

/-- C6 witness at the Soft Tissue preset on the one-sample grid `[[40]]`. -/
theorem C6_fixed_window_witness :
    "Soft Tissue" ≠ "Auto" ∧ (0 : ℚ) < 350 ∧
      (apply_windowing "Soft Tissue" (some 350) (some 40) [[40]] =
          [[40]].map (List.map (windowPoint 350 40)) ∧
        (∀ x : ℚ, windowPoint 350 40 x ≤ 255) ∧
        windowPoint 350 40 40 = 127 ∧
        (∀ x : ℚ, x ≤ -135 → windowPoint 350 40 x = 0) ∧
        (∀ x : ℚ, 215 ≤ x → windowPoint 350 40 x = 255)) :=
  ⟨by decide, by decide,
    C6_fixed_window "Soft Tissue" 350 40 [[40]] (by decide) (by decide)⟩

/-- C7: the windowing step never divides by zero — auto windowing on a grid
whose observed minimum equals its observed maximum yields the all-zero
intensity grid, and a fixed preset with non-positive width (so
`upper ≤ lower`) also yields the all-zero grid. -/
theorem C7_windowing_degenerate (g : Grid) (name : String) (w c : ℚ)
    (hmm : listMin (gridVals g) = listMax (gridVals g))
    (hname : name ≠ "Auto") (hw : w ≤ 0) :
    apply_windowing "Auto" none none g = g.map (List.map (fun _ => 0)) ∧
      apply_windowing name (some w) (some c) g =
        g.map (List.map (fun _ => 0)) := by
  constructor
  · rw [apply_windowing, if_pos (Or.inl rfl), if_neg (by rw [hmm]; exact lt_irrefl _)]
  · rw [apply_windowing, if_neg (by simp [hname])]
    simp only [Option.getD_some]
    rw [if_neg (by intro hcon; linarith)]

/-- C7 witness: the constant grid `[[5]]` under auto windowing, and a width-0
preset. -/
theorem C7_windowing_degenerate_witness :
    listMin (gridVals [[5]]) = listMax (gridVals [[5]]) ∧
      "Bone" ≠ "Auto" ∧ (0 : ℚ) ≤ 0 ∧
      (apply_windowing "Auto" none none [[5]] =
          [[(5 : ℚ)]].map (List.map (fun _ => 0)) ∧
        apply_windowing "Bone" (some 0) (some 0) [[5]] =
          [[(5 : ℚ)]].map (List.map (fun _ => 0))) :=
  ⟨rfl, by decide, by decide,
    C7_windowing_degenerate [[5]] "Bone" 0 0 rfl (by decide) (by decide)⟩

/-! Helper lemmas about paths, the filesystem model, and the save loop. -/

lemma bak_ne_self (p : String) : bak p ≠ p := by
  intro h
  have hlen := congrArg String.length h
  rw [bak, String.length_append] at hlen
  have h4 : (".bak" : String).length = 4 := rfl
  omega

lemma fsWrite_ne (fs : FS) (p : String) (c : ℕ) (q : String) (h : q ≠ p) :
    fsWrite fs p c q = fs q := by
  simp [fsWrite, h]

lemma fsWrite_self (fs : FS) (p : String) (c : ℕ) :
    fsWrite fs p c p = some c := by
  simp [fsWrite]

lemma fsWrite_isSome (fs : FS) (p : String) (c : ℕ) (q : String)
    (h : (fs q).isSome = true) : (fsWrite fs p c q).isSome = true := by
  by_cases hq : q = p <;> simp [fsWrite, hq, h]

lemma cleanup_read (l : List String) (fs : FS) (q : String) :
    cleanup_backup_files fs l q = if q ∈ l then none else fs q := by
  induction l generalizing fs with
  | nil => simp [cleanup_backup_files]
  | cons b rest ih =>
    rw [cleanup_backup_files, ih]
    by_cases hq : q ∈ rest
    · simp [hq]
    · by_cases hqb : q = b
      · subst hqb
        cases h : fs q with
        | none => simp [hq, h]
        | some c => simp [hq, h, fsDelete]
      · by_cases hex : (fs b).isSome <;>
          simp [hq, hqb, hex, fsDelete, Ne.symm hqb]

lemma save_loop_frame (enc : String → Option ℕ) (l : List String) (fs : FS)
    (bks : List String) (q : String) (hq : ∀ r ∈ l, q ≠ r ∧ q ≠ bak r) :
    (save_loop enc l fs bks).1 q = fs q := by
  induction l generalizing fs bks with
  | nil => rfl
  | cons p rest ih =>
    obtain ⟨hq1, hq2⟩ := hq p (List.mem_cons_self p rest)
    have hrest : ∀ r ∈ rest, q ≠ r ∧ q ≠ bak r :=
      fun r hr => hq r (List.mem_cons_of_mem p hr)
    rw [save_loop]
    by_cases h1 : (fs (bak p)).isSome
    · rw [if_pos h1]
      cases h2 : enc p with
      | some c => rw [ih (fsWrite fs p c) bks hrest, fsWrite_ne _ _ _ _ hq1]
      | none => rfl
    · rw [if_neg h1]
      cases h3 : fs p with
      | none => rfl
      | some orig =>
        cases h2 : enc p with
        | some c =>
            rw [ih _ _ hrest, fsWrite_ne _ _ _ _ hq1, fsWrite_ne _ _ _ _ hq2]
        | none => exact fsWrite_ne _ _ _ _ hq2

lemma save_loop_mono (enc : String → Option ℕ) (l : List String) (fs : FS)
    (bks : List String) (q : String) (h : (fs q).isSome = true) :
    ((save_loop enc l fs bks).1 q).isSome = true := by
  induction l generalizing fs bks with
  | nil => exact h
  | cons p rest ih =>
    rw [save_loop]
    by_cases h1 : (fs (bak p)).isSome
    · rw [if_pos h1]
      cases h2 : enc p with
      | some c => exact ih (fsWrite fs p c) bks (fsWrite_isSome _ _ _ _ h)
      | none => exact h
    · rw [if_neg h1]
      cases h3 : fs p with
      | none => exact h
      | some orig =>
        cases h2 : enc p with
        | some c =>
            exact ih (fsWrite (fsWrite fs (bak p) orig) p c) (bks ++ [bak p])
              (fsWrite_isSome _ _ _ _ (fsWrite_isSome _ _ _ _ h))
        | none => exact fsWrite_isSome _ _ _ _ h

lemma save_loop_bks_grow (enc : String → Option ℕ) (l : List String) (fs : FS)
    (bks : List String) (b : String) (h : b ∈ bks) :
    b ∈ (save_loop enc l fs bks).2.1 := by
  induction l generalizing fs bks with
  | nil => exact h
  | cons p rest ih =>
    rw [save_loop]
    by_cases h1 : (fs (bak p)).isSome
    · rw [if_pos h1]
      cases h2 : enc p with
      | some c => exact ih (fsWrite fs p c) bks h
      | none => exact h
    · rw [if_neg h1]
      cases h3 : fs p with
      | none => exact h
      | some orig =>
        cases h2 : enc p with
        | some c =>
            exact ih _ _ (List.mem_append_left _ h)
        | none => exact List.mem_append_left _ h

lemma save_loop_untouched_or_logged (enc : String → Option ℕ)
    (l : List String) (fs : FS) (bks : List String) (q : String)
    (hq : ∀ r ∈ l, q ≠ r) :
    (save_loop enc l fs bks).1 q = fs q ∨ q ∈ (save_loop enc l fs bks).2.1 := by
  induction l generalizing fs bks with
  | nil => exact Or.inl rfl
  | cons p rest ih =>
    have hq1 : q ≠ p := hq p (List.mem_cons_self p rest)
    have hrest : ∀ r ∈ rest, q ≠ r :=
      fun r hr => hq r (List.mem_cons_of_mem p hr)
    rw [save_loop]
    by_cases h1 : (fs (bak p)).isSome
    · rw [if_pos h1]
      cases h2 : enc p with
      | some c =>
          rcases ih (fsWrite fs p c) bks hrest with hl | hr
          · exact Or.inl (by rw [hl, fsWrite_ne _ _ _ _ hq1])
          · exact Or.inr hr
      | none => exact Or.inl rfl
    · rw [if_neg h1]
      cases h3 : fs p with
      | none => exact Or.inl rfl
      | some orig =>
        by_cases hqb : q = bak p
        · subst hqb
          cases h2 : enc p with
          | some c =>
              exact Or.inr (save_loop_bks_grow _ _ _ _ _
                (List.mem_append_right _ (List.mem_singleton.mpr rfl)))
          | none =>
              exact Or.inr (List.mem_append_right _ (List.mem_singleton.mpr rfl))
        · cases h2 : enc p with
          | some c =>
              rcases ih _ (bks ++ [bak p]) hrest with hl | hr
              · exact Or.inl (by
                  rw [hl, fsWrite_ne _ _ _ _ hq1, fsWrite_ne _ _ _ _ hqb])
              · exact Or.inr hr
          | none => exact Or.inl (fsWrite_ne _ _ _ _ hqb)

lemma save_loop_all_ok (enc : String → Option ℕ) (l : List String) (fs : FS)
    (bks : List String)
    (henc : ∀ r ∈ l, (enc r).isSome = true)
    (hex : ∀ r ∈ l, (fs r).isSome = true) :
    (save_loop enc l fs bks).2.2 = false := by
  induction l generalizing fs bks with
  | nil => rfl
  | cons p rest ih =>
    have hencp := henc p (List.mem_cons_self p rest)
    have hexp := hex p (List.mem_cons_self p rest)
    obtain ⟨c, hc⟩ := Option.isSome_iff_exists.mp hencp
    rw [save_loop]
    by_cases h1 : (fs (bak p)).isSome
    · rw [if_pos h1, hc]
      exact ih (fsWrite fs p c) bks
        (fun r hr => henc r (List.mem_cons_of_mem p hr))
        (fun r hr => fsWrite_isSome _ _ _ _ (hex r (List.mem_cons_of_mem p hr)))
    · rw [if_neg h1]
      obtain ⟨orig, horig⟩ := Option.isSome_iff_exists.mp hexp
      rw [horig, hc]
      exact ih _ _
        (fun r hr => henc r (List.mem_cons_of_mem p hr))
        (fun r hr => fsWrite_isSome _ _ _ _
          (fsWrite_isSome _ _ _ _ (hex r (List.mem_cons_of_mem p hr))))

lemma save_loop_fail_at (enc : String → Option ℕ) (pre post : List String)
    (p : String) (fs : FS) (bks : List String)
    (henc : ∀ r ∈ pre, (enc r).isSome = true)
    (hex : ∀ r ∈ pre, (fs r).isSome = true)
    (hpEx : (fs p).isSome = true)
    (hfail : enc p = none)
    (hclash : ∀ r ∈ pre, p ≠ r ∧ p ≠ bak r) :
    (save_loop enc (pre ++ p :: post) fs bks).2.2 = true ∧
    ((save_loop enc (pre ++ p :: post) fs bks).1 (bak p)).isSome = true ∧
    (save_loop enc (pre ++ p :: post) fs bks).1 p = fs p := by
  induction pre generalizing fs bks with
  | nil =>
    rw [List.nil_append, save_loop]
    by_cases h1 : (fs (bak p)).isSome
    · rw [if_pos h1, hfail]
      exact ⟨rfl, h1, rfl⟩
    · rw [if_neg h1]
      obtain ⟨orig, horig⟩ := Option.isSome_iff_exists.mp hpEx
      rw [horig, hfail]
      refine ⟨rfl, ?_, ?_⟩
      · dsimp only
        rw [fsWrite_self]
        rfl
      · dsimp only
        rw [fsWrite_ne _ _ _ _ (bak_ne_self p).symm, horig]
  | cons r pre' ih =>
    have hencr := henc r (List.mem_cons_self r pre')
    have hexr := hex r (List.mem_cons_self r pre')
    obtain ⟨hpr, hpbr⟩ := hclash r (List.mem_cons_self r pre')
    obtain ⟨c, hc⟩ := Option.isSome_iff_exists.mp hencr
    have htl : ∀ s ∈ pre', (enc s).isSome = true :=
      fun s hs => henc s (List.mem_cons_of_mem r hs)
    have hcl : ∀ s ∈ pre', p ≠ s ∧ p ≠ bak s :=
      fun s hs => hclash s (List.mem_cons_of_mem r hs)
    rw [List.cons_append, save_loop]
    by_cases h1 : (fs (bak r)).isSome
    · rw [if_pos h1, hc]
      have := ih (fsWrite fs r c) bks htl
        (fun s hs => fsWrite_isSome _ _ _ _ (hex s (List.mem_cons_of_mem r hs)))
        (fsWrite_isSome _ _ _ _ hpEx) hcl
      refine ⟨this.1, this.2.1, ?_⟩
      rw [this.2.2, fsWrite_ne _ _ _ _ hpr]
    · rw [if_neg h1]
      obtain ⟨orig, horig⟩ := Option.isSome_iff_exists.mp hexr
      rw [horig, hc]
      have := ih (fsWrite (fsWrite fs (bak r) orig) r c) (bks ++ [bak r]) htl
        (fun s hs => fsWrite_isSome _ _ _ _
          (fsWrite_isSome _ _ _ _ (hex s (List.mem_cons_of_mem r hs))))
        (fsWrite_isSome _ _ _ _ (fsWrite_isSome _ _ _ _ hpEx)) hcl
      refine ⟨this.1, this.2.1, ?_⟩
      rw [this.2.2, fsWrite_ne _ _ _ _ hpr, fsWrite_ne _ _ _ _ hpbr]

lemma save_loop_preexisting_bak (enc : String → Option ℕ) (l : List String)
    (fs : FS) (bks : List String) (r : String) (c : ℕ)
    (hpre : fs (bak r) = some c)
    (hclash : ∀ x ∈ l, x ≠ bak r) :
    (save_loop enc l fs bks).1 (bak r) = some c ∧
    (bak r ∈ (save_loop enc l fs bks).2.1 → bak r ∈ bks) := by
  induction l generalizing fs bks with
  | nil => exact ⟨hpre, fun h => h⟩
  | cons x rest ih =>
    have hx : x ≠ bak r := hclash x (List.mem_cons_self x rest)
    have htl : ∀ y ∈ rest, y ≠ bak r :=
      fun y hy => hclash y (List.mem_cons_of_mem x hy)
    rw [save_loop]
    by_cases hxr : bak x = bak r
    · have h1 : (fs (bak x)).isSome = true := by rw [hxr, hpre]; rfl
      rw [if_pos h1]
      cases h2 : enc x with
      | some c' =>
          exact ih (fsWrite fs x c') bks
            (by rw [fsWrite_ne _ _ _ _ (Ne.symm hx)]; exact hpre) htl
      | none => exact ⟨hpre, fun h => h⟩
    · by_cases h1 : (fs (bak x)).isSome
      · rw [if_pos h1]
        cases h2 : enc x with
        | some c' =>
            exact ih (fsWrite fs x c') bks
              (by rw [fsWrite_ne _ _ _ _ (Ne.symm hx)]; exact hpre) htl
        | none => exact ⟨hpre, fun h => h⟩
      · rw [if_neg h1]
        cases h3 : fs x with
        | none => exact ⟨hpre, fun h => h⟩
        | some orig =>
          have hbb : bak r ≠ bak x := Ne.symm hxr
          cases h2 : enc x with
          | some c' =>
              have := ih (fsWrite (fsWrite fs (bak x) orig) x c')
                (bks ++ [bak x])
                (by rw [fsWrite_ne _ _ _ _ (Ne.symm hx), fsWrite_ne _ _ _ _ hbb]
                    exact hpre) htl
              refine ⟨this.1, fun h => ?_⟩
              rcases List.mem_append.mp (this.2 h) with hmem | hmem
              · exact hmem
              · exact absurd (List.mem_singleton.mp hmem) hbb
          | none =>
              dsimp only
              refine ⟨by rw [fsWrite_ne _ _ _ _ hbb]; exact hpre, fun h => ?_⟩
              rcases List.mem_append.mp h with hmem | hmem
              · exact hmem
              · exact absurd (List.mem_singleton.mp hmem) hbb

lemma action_save_file_of_failed (enc : String → Option ℕ)
    (batch : List String) (st : SaveState)
    (hdirty : st.has_changes = true)
    (hfl : (save_loop enc batch st.fs []).2.2 = true) :
    action_save_file enc batch st =
      ({ fs := (save_loop enc batch st.fs []).1,
         has_changes := st.has_changes }, SaveOutcome.failed) := by
  unfold action_save_file
  rw [hdirty, if_pos rfl]
  rcases h : save_loop enc batch st.fs [] with ⟨fs1, bks1, failed⟩
  rw [h] at hfl
  simp only at hfl
  subst hfl
  rfl

lemma action_save_file_of_saved (enc : String → Option ℕ)
    (batch : List String) (st : SaveState)
    (hdirty : st.has_changes = true)
    (hfl : (save_loop enc batch st.fs []).2.2 = false) :
    action_save_file enc batch st =
      ({ fs := cleanup_backup_files (save_loop enc batch st.fs []).1
                 (save_loop enc batch st.fs []).2.1,
         has_changes := false }, SaveOutcome.saved) := by
  unfold action_save_file
  rw [hdirty, if_pos rfl]
  rcases h : save_loop enc batch st.fs [] with ⟨fs1, bks1, failed⟩
  rw [h] at hfl
  simp only at hfl
  subst hfl
  rfl

/-! Theorems about the write transaction. -/

/-- C1: when the external encode step fails for a file of the batch (every
earlier file having encoded fine), the failing file's backup exists after
the save returns, the failing file's content is unchanged from its pre-save
content, the call takes the failure path (the spec's `PartialFailure`), and
the dirty flag stays set.  The clash hypotheses say the failing file is not
listed twice and is not some earlier file's backup path. -/
theorem C1_encode_failure_keeps_backup (enc : String → Option ℕ)
    (pre post : List String) (p : String) (st : SaveState)
    (hdirty : st.has_changes = true)
    (henc : ∀ r ∈ pre, (enc r).isSome = true)
    (hex : ∀ r ∈ pre, (st.fs r).isSome = true)
    (hpEx : (st.fs p).isSome = true)
    (hfail : enc p = none)
    (hclash : ∀ r ∈ pre, p ≠ r ∧ p ≠ bak r) :
    (((action_save_file enc (pre ++ p :: post) st).1.fs (bak p)).isSome = true) ∧
    (action_save_file enc (pre ++ p :: post) st).1.fs p = st.fs p ∧
    (action_save_file enc (pre ++ p :: post) st).2 = SaveOutcome.failed ∧
    (action_save_file enc (pre ++ p :: post) st).1.has_changes = true := by
  obtain ⟨hfl, hbak, hp⟩ :=
    save_loop_fail_at enc pre post p st.fs [] henc hex hpEx hfail hclash
  rw [action_save_file_of_failed enc (pre ++ p :: post) st hdirty hfl]
  exact ⟨hbak, hp, rfl, hdirty⟩

/-- C1 witness: a two-file batch where the first file encodes fine and the
second file's encode raises. -/
theorem C1_encode_failure_keeps_backup_witness :
    (∀ r ∈ ["a"], ((fun q => if q = "a" then some 10 else none) r).isSome = true) ∧
    ((fun q => if q = "a" then some 10 else none) "b" = none) ∧
    ((((action_save_file (fun q => if q = "a" then some 10 else none)
        (["a"] ++ "b" :: [])
        { fs := fun q => if q = "a" then some 1 else
            if q = "b" then some 2 else none,
          has_changes := true }).1.fs (bak "b")).isSome = true) ∧
      (action_save_file (fun q => if q = "a" then some 10 else none)
        (["a"] ++ "b" :: [])
        { fs := fun q => if q = "a" then some 1 else
            if q = "b" then some 2 else none,
          has_changes := true }).1.fs "b" =
        (fun q => if q = "a" then some 1 else
            if q = "b" then some 2 else none) "b" ∧
      (action_save_file (fun q => if q = "a" then some 10 else none)
        (["a"] ++ "b" :: [])
        { fs := fun q => if q = "a" then some 1 else
            if q = "b" then some 2 else none,
          has_changes := true }).2 = SaveOutcome.failed ∧
      (action_save_file (fun q => if q = "a" then some 10 else none)
        (["a"] ++ "b" :: [])
        { fs := fun q => if q = "a" then some 1 else
            if q = "b" then some 2 else none,
          has_changes := true }).1.has_changes = true) :=
  ⟨by decide, by decide,
    C1_encode_failure_keeps_backup (fun q => if q = "a" then some 10 else none)
      ["a"] [] "b"
      { fs := fun q => if q = "a" then some 1 else
          if q = "b" then some 2 else none,
        has_changes := true }
      (by decide) (by decide) (by decide) (by decide) (by decide) (by decide)⟩

/-- C2 counterexample: a save in which every encode succeeds, yet a `.bak`
file of a batch file that already existed before the save is still on disk
after the call returns — the claim's "including a `.bak` that already
existed before the save started" fails on the code, which removes only the
backups it created itself. -/
theorem C2_counterexample :
    (fun q => if q = "a" then some 1 else
        if q = "a.bak" then some 9 else none : FS) (bak "a") = some 9 ∧
    (action_save_file (fun _ => some 5) ["a"]
      { fs := fun q => if q = "a" then some 1 else
          if q = "a.bak" then some 9 else none,
        has_changes := true }).2 = SaveOutcome.saved ∧
    (action_save_file (fun _ => some 5) ["a"]
      { fs := fun q => if q = "a" then some 1 else
          if q = "a.bak" then some 9 else none,
        has_changes := true }).1.fs (bak "a") = some 9 := by
  refine ⟨by decide, ?_, ?_⟩ <;> decide

/-- C2 (amended): after a save in which every file of the batch encodes
successfully, the dirty flag is cleared and no backup created by this save
remains: for a batch file `p` with no pre-existing backup (and whose backup
path is not itself a batch file), `p`'s backup is absent when the call
returns.  A `.bak` that already existed before the save is retained, not
deleted (see the counterexample). -/
theorem C2_success_cleanup (enc : String → Option ℕ) (batch : List String)
    (st : SaveState) (p : String)
    (hdirty : st.has_changes = true)
    (henc : ∀ r ∈ batch, (enc r).isSome = true)
    (hex : ∀ r ∈ batch, (st.fs r).isSome = true)
    (hp : p ∈ batch)
    (hnoPre : st.fs (bak p) = none)
    (hclash : ∀ r ∈ batch, r ≠ bak p) :
    (action_save_file enc batch st).2 = SaveOutcome.saved ∧
    (action_save_file enc batch st).1.has_changes = false ∧
    (action_save_file enc batch st).1.fs (bak p) = none := by
  have hfl := save_loop_all_ok enc batch st.fs [] henc hex
  rw [action_save_file_of_saved enc batch st hdirty hfl]
  refine ⟨rfl, rfl, ?_⟩
  dsimp only
  rw [cleanup_read]
  by_cases hmem : bak p ∈ (save_loop enc batch st.fs []).2.1
  · rw [if_pos hmem]
  · rw [if_neg hmem]
    rcases save_loop_untouched_or_logged enc batch st.fs [] (bak p)
        (fun r hr => Ne.symm (hclash r hr)) with hfs | hlog
    · rw [hfs, hnoPre]
    · exact absurd hlog hmem

/-- C2 witness: a one-file batch with no pre-existing backup; after the
successful save the backup is gone and the dirty flag cleared. -/
theorem C2_success_cleanup_witness :
    (∀ r ∈ ["a"], ((fun _ => some 5 : String → Option ℕ) r).isSome = true) ∧
    ((fun q => if q = "a" then some 1 else none : FS) (bak "a") = none) ∧
    ((action_save_file (fun _ => some 5) ["a"]
        { fs := fun q => if q = "a" then some 1 else none,
          has_changes := true }).2 = SaveOutcome.saved ∧
      (action_save_file (fun _ => some 5) ["a"]
        { fs := fun q => if q = "a" then some 1 else none,
          has_changes := true }).1.has_changes = false ∧
      (action_save_file (fun _ => some 5) ["a"]
        { fs := fun q => if q = "a" then some 1 else none,
          has_changes := true }).1.fs (bak "a") = none) :=
  ⟨by decide, by decide,
    C2_success_cleanup (fun _ => some 5) ["a"]
      { fs := fun q => if q = "a" then some 1 else none, has_changes := true }
      "a" (by decide) (by decide) (by decide) (by decide) (by decide)
      (by decide)⟩

/-- C4: a pre-existing backup is never overwritten (and never deleted) by a
later save: whatever the encode outcomes, after `action_save_file` the
content at the backup path is exactly what it was before, and the save loop
never registers that path among the backups it created.  The clash
hypothesis says no batch file sits at that backup path. -/
theorem C4_existing_backup_preserved (enc : String → Option ℕ)
    (batch bks : List String) (st : SaveState) (r : String) (c : ℕ)
    (hpre : st.fs (bak r) = some c)
    (hclash : ∀ x ∈ batch, x ≠ bak r) :
    (save_loop enc batch st.fs bks).1 (bak r) = some c ∧
    (bak r ∈ (save_loop enc batch st.fs bks).2.1 → bak r ∈ bks) ∧
    (action_save_file enc batch st).1.fs (bak r) = some c := by
  obtain ⟨hkeep, hlog⟩ :=
    save_loop_preexisting_bak enc batch st.fs bks r c hpre hclash
  obtain ⟨hkeep0, hlog0⟩ :=
    save_loop_preexisting_bak enc batch st.fs [] r c hpre hclash
  refine ⟨hkeep, hlog, ?_⟩
  cases hdirty : st.has_changes with
  | false =>
    unfold action_save_file
    rw [hdirty, if_neg (by simp)]
    exact hpre
  | true =>
    cases hfl : (save_loop enc batch st.fs []).2.2 with
    | true =>
      rw [action_save_file_of_failed enc batch st hdirty hfl]
      exact hkeep0
    | false =>
      rw [action_save_file_of_saved enc batch st hdirty hfl]
      dsimp only
      rw [cleanup_read, if_neg (fun hmem => (List.not_mem_nil _) (hlog0 hmem))]
      exact hkeep0

/-- C4 witness: a batch whose single file carries a pre-existing backup from
an earlier failed save; a new fully-successful save leaves it intact. -/
theorem C4_existing_backup_preserved_witness :
    ((fun q => if q = "a" then some 1 else
        if q = "a.bak" then some 9 else none : FS) (bak "a") = some 9) ∧
    ((save_loop (fun _ => some 5) ["a"]
        (fun q => if q = "a" then some 1 else
          if q = "a.bak" then some 9 else none) []).1 (bak "a") = some 9 ∧
      (bak "a" ∈ (save_loop (fun _ => some 5) ["a"]
        (fun q => if q = "a" then some 1 else
          if q = "a.bak" then some 9 else none) []).2.1 → bak "a" ∈ ([] : List String)) ∧
      (action_save_file (fun _ => some 5) ["a"]
        { fs := fun q => if q = "a" then some 1 else
            if q = "a.bak" then some 9 else none,
          has_changes := true }).1.fs (bak "a") = some 9) :=
  ⟨by decide,
    C4_existing_backup_preserved (fun _ => some 5) ["a"] []
      { fs := fun q => if q = "a" then some 1 else
          if q = "a.bak" then some 9 else none,
        has_changes := true }
      "a" 9 (by decide) (by decide)⟩

/-! Theorems about the bulk mutation engine, coercion, and the editability
policy. -/

/-- Patient Name, a representative editable, non-slice-specific tag. -/
def tagPatientName : Tag := ⟨0x0010, 0x0010⟩

/-- A Patient Name element with the given value. -/
def elemPN (v : String) : DataElement := ⟨tagPatientName, "PN", .str v⟩

/-- A 3-record working set in which the middle record lacks the field. -/
def ws3 : WSet := [("f1", [elemPN "A"]), ("f2", []), ("f3", [elemPN "B"])]

/-- C3 counterexample: on the 3-record set where one record lacks the field,
exactly 2 records satisfy the update guard, yet the call does not return the
count 2 — the source method has no return statement, so its return value is
`None`, not `updatedCount == 2`. -/
theorem C3_counterexample :
    updatedCount ws3 tagPatientName = 2 ∧
    (bulk_update_tag ws3 tagPatientName (PyValue.str "Z")).2 ≠ some 2 := by
  refine ⟨by decide, by decide⟩

/-- C3 (amended): `bulk_update_tag` updates exactly the records that contain
the field and pass the editability policy, keeps every other record
untouched in place (never aborting, never dropping a record), and sets the
found element's value; on the 3-record set it updates exactly 2 records —
but it returns `None`, reporting no updated count. -/
theorem C3_bulk_update (ws : WSet) (t : Tag) (v : PyValue) :
    (bulk_update_tag ws t v).2 = none ∧
    (bulk_update_tag ws t v).1.length = ws.length ∧
    List.Forall₂ (fun old new =>
        new = if wouldUpdate old.2 t then (old.1, setTagValue old.2 t v)
          else old)
      ws (bulk_update_tag ws t v).1 ∧
    (∀ ds el, findTag ds t = some el →
      findTag (setTagValue ds t v) t = some { el with value := v }) ∧
    (bulk_update_tag ws3 tagPatientName (PyValue.str "Z")).1 =
      [("f1", [elemPN "Z"]), ("f2", []), ("f3", [elemPN "Z"])] ∧
    updatedCount ws3 tagPatientName = 2 := by
  refine ⟨rfl, by simp [bulk_update_tag], ?_, ?_, by decide, by decide⟩
  · unfold bulk_update_tag
    induction ws with
    | nil => exact List.Forall₂.nil
    | cons hd tl ih => exact List.Forall₂.cons rfl ih
  · intro ds el h
    induction ds with
    | nil => simp [findTag] at h
    | cons e rest ih =>
      by_cases he : e.tag = t
      · rw [findTag, List.find?_cons_of_pos _ (by simp [he])] at h
        cases h
        rw [setTagValue, if_pos he, findTag,
          List.find?_cons_of_pos _ (by simp [he])]
      · rw [findTag, List.find?_cons_of_neg _ (by simp [he])] at h
        rw [setTagValue, if_neg he, findTag,
          List.find?_cons_of_neg _ (by simp [he])]
        exact ih h

/-- C9: coercing the empty string yields `0.0` for the decimal kind and `0`
for the integer kind; a non-parsable string for either kind fails with
`InvalidFormat` (concretely, `"abc"` fails for both); and whenever coercion
fails, `handle_edit_result` returns the state unchanged — no dataset in the
working set is touched and the dirty flag keeps its value. -/
theorem C9_coercion :
    convert_value_for_vr "" "DS" = .ok (.float 0) ∧
    convert_value_for_vr "" "IS" = .ok (.int 0) ∧
    (∀ s : String, s ≠ "" → parseFloat? s = none →
      convert_value_for_vr s "DS" = .error .invalidFormat) ∧
    (∀ s : String, s ≠ "" → parseInt? s = none →
      convert_value_for_vr s "IS" = .error .invalidFormat) ∧
    convert_value_for_vr "abc" "DS" = .error .invalidFormat ∧
    convert_value_for_vr "abc" "IS" = .error .invalidFormat ∧
    (∀ (st : EditState) (numFiles : ℕ) (cf : String) (t : Tag) (vr : String)
        (cv nv : String), convert_value_for_vr nv vr = .error .invalidFormat →
      handle_edit_result st numFiles cf t vr cv (some nv) = st) := by
  refine ⟨rfl, rfl, ?_, ?_, rfl, rfl, ?_⟩
  · intro s hs hp
    rw [convert_value_for_vr, if_pos rfl, if_pos hs, hp]
  · intro s hs hp
    rw [convert_value_for_vr, if_neg (by decide), if_pos rfl, if_pos hs, hp]
  · intro st numFiles cf t vr cv nv herr
    rw [handle_edit_result]
    by_cases heq : nv = cv
    · rw [if_pos heq]
    · rw [if_neg heq, herr]

/-- Slice Location, a slice-specific tag whose VR `DS` is on the editable
allow-list. -/
def tagSliceLoc : Tag := ⟨0x0020, 0x1041⟩

/-- A Slice Location element with the given value. -/
def elemSL (v : String) : DataElement := ⟨tagSliceLoc, "DS", .str v⟩

/-- A two-file working set with per-slice Slice Location values. -/
def wsSL : WSet := [("f1", [elemSL "1.0"]), ("f2", [elemSL "2.0"])]

/-- C10: the bulk mutation engine checks only the editability policy, never
the slice-specific block-list — on a two-file set it overwrites Slice
Location (slice-specific yet editable) in every record; its per-record guard
is exactly presence plus editability; the only protection is upstream, where
`add_element_to_tree` keeps slice-specific tags out of the tag map whenever
more than one file is loaded. -/
theorem C10_bulk_engine_ignores_slice_specific :
    is_slice_specific_tag tagSliceLoc = true ∧
    is_editable_tag (elemSL "1.0") = true ∧
    (bulk_update_tag wsSL tagSliceLoc (PyValue.str "9")).1 =
      [("f1", [elemSL "9"]), ("f2", [elemSL "9"])] ∧
    updatedCount wsSL tagSliceLoc = wsSL.length ∧
    (∀ (ws : WSet) (v : PyValue), (bulk_update_tag ws tagSliceLoc v).1 =
      ws.map (fun entry => if wouldUpdate entry.2 tagSliceLoc then
        (entry.1, setTagValue entry.2 tagSliceLoc v) else entry)) ∧
    (∀ (numFiles : ℕ) (e : DataElement), 1 < numFiles →
      is_slice_specific_tag e.tag = true →
      tag_map_condition numFiles e = false) := by
  refine ⟨rfl, rfl, by decide, by decide, fun ws v => rfl, ?_⟩
  intro numFiles e hn hs
  rw [tag_map_condition, hs]
  have hgt : decide (numFiles > 1) = true := decide_eq_true hn
  rw [hgt]
  simp

end DicomCLI
